import Mathlib

/-
Verification of the Degeneracy Hunter diagnostic pipeline demonstrated by the
repository's notebooks (the "Degeneracy Hunter Examples" notebook and its two
Pyomo models).

The notebooks build two concrete optimization models and drive the diagnostic
pipeline: residual checking, variable-bound checking, rank analysis of the
equality-constraint Jacobian, candidate-equation extraction, and the MILP-based
search for irreducible degenerate sets (IDS).  The models, points, tolerances
and the final printing cell are translated from the notebook source.  The
diagnostic procedures themselves live in the external `idaes` package (only
their call sites appear in the repository), so they are modelled from the
specification; each such definition carries a doc comment saying so.

Numbers are embedded as rationals.  The spec's SVD-based rank analysis is
modelled in exact arithmetic: singular values that the spec counts as "below
the threshold ε" are exactly the zero singular values, whose count is the
dimension of the left null space of the Jacobian, and the near-zero left
singular vectors span that left null space.  Gaussian elimination over ℚ
computes a basis of the left null space, which is exact rather than
approximate, but coincides with the spec's description for every claim below.
-/

attribute [local semireducible] Rat.add Rat.sub Rat.mul Rat.inv

/-! ## Exact linear algebra over ℚ (rows as lists) -/

/-- Multiply every entry of a row by a scalar. -/
def scaleRow (a : ℚ) (r : List ℚ) : List ℚ := r.map (a * ·)

/-- Entrywise difference of two rows. -/
def subRow (r s : List ℚ) : List ℚ := List.zipWith (· - ·) r s

/-- Find the first pair whose matrix row has a nonzero head and split it off.
Pairs carry (remaining matrix row, combination-of-original-rows tag). -/
def pivotSplit : List (List ℚ × List ℚ) → Option ((List ℚ × List ℚ) × List (List ℚ × List ℚ))
  | [] => none
  | p :: ps =>
    if p.1.headD 0 ≠ 0 then some (p, ps)
    else
      match pivotSplit ps with
      | some (q, qs) => some (q, p :: qs)
      | none => none

/-- Eliminate the leading entry of `q` using the pivot pair `p`, updating both
the matrix part and the combination tag. -/
def elimWith (p q : List ℚ × List ℚ) : List ℚ × List ℚ :=
  let f := q.1.headD 0 / p.1.headD 0
  (subRow q.1 (scaleRow f p.1), subRow q.2 (scaleRow f p.2))

/-- Gaussian elimination, one column per unit of fuel.  Pairs whose matrix row
is fully eliminated (never chosen as a pivot) end up with an all-zero row; their
tags are exact nonzero combinations of the original rows that vanish, i.e. a
basis of the left null space. -/
def nullElim : ℕ → List (List ℚ × List ℚ) → List (List ℚ)
  | 0, ps => ps.map Prod.snd
  | n + 1, ps =>
    match pivotSplit ps with
    | none => nullElim n (ps.map fun q => (q.1.tail, q.2))
    | some (p, rest) => nullElim n ((rest.map (elimWith p)).map fun q => (q.1.tail, q.2))

/-- Rows of the m×m identity matrix, used as initial combination tags. -/
def idRows (m : ℕ) : List (List ℚ) :=
  (List.range m).map fun i => (List.range m).map fun j => if j = i then 1 else 0

/-- Basis of the left null space of a matrix given as a list of rows:
all vectors y (as coefficient lists over the rows) with y · J = 0,
computed by exact Gaussian elimination. -/
def nullBasis (J : List (List ℚ)) : List (List ℚ) :=
  nullElim (J.headD []).length (List.zip J (idRows J.length))

/-- Restrict a matrix to the rows whose index lies in `S`, preserving order. -/
def selectRows (J : List (List ℚ)) (S : Finset ℕ) : List (List ℚ) :=
  ((List.range J.length).filter (· ∈ S)).map fun i => J.getD i []

/-- Modelled from the spec: the rows of `J` indexed by `S` are linearly
dependent, i.e. some nonzero multiplier vector supported on `S` combines the
selected rows to zero (the MILP's null-space + normalization constraints are
satisfiable with exactly the rows of `S` selected). -/
def depRows (J : List (List ℚ)) (S : Finset ℕ) : Prop :=
  nullBasis (selectRows J S) ≠ []

instance instDecDepRows (J : List (List ℚ)) (S : Finset ℕ) : Decidable (depRows J S) := by
  unfold depRows; exact inferInstance

/-- Modelled from the spec (IDS MILP, section 4.5): `S` is an optimal solution
of the MILP seeded with candidate row `c`.  Feasibility of a selection `T`
means: the binary for the seed is fixed to selected (`c ∈ T`) and the selected
rows admit a nonzero left null vector (`depRows`); optimality means `S` has
minimum cardinality among all feasible selections.  The MILP solver may return
any optimal solution, so the returned IDS is modelled relationally by this
predicate. -/
def isOptimalIDS (J : List (List ℚ)) (c : ℕ) (S : Finset ℕ) : Prop :=
  S ⊆ Finset.range J.length ∧ c ∈ S ∧ depRows J S ∧
    ∀ T ∈ (Finset.range J.length).powerset, c ∈ T → depRows J T → S.card ≤ T.card

instance instDecIsOptimalIDS (J : List (List ℚ)) (c : ℕ) (S : Finset ℕ) :
    Decidable (isOptimalIDS J c S) := by
  unfold isOptimalIDS; exact inferInstance

/-- Pick a minimum-cardinality set from a list (first minimum). -/
def pickMinCard : List (Finset ℕ) → Option (Finset ℕ)
  | [] => none
  | S :: rest =>
    match pickMinCard rest with
    | none => some S
    | some T => if S.card ≤ T.card then some S else some T

/-- All subsets of the row indices below `n`, as a list of finite sets. -/
def allSubsets (n : ℕ) : List (Finset ℕ) := (List.range n).sublists.map List.toFinset

/-- Modelled from the spec: one concrete deterministic MILP solve for the IDS
seeded with row `c` — returns a minimum-cardinality feasible selection, or
`none` when the MILP is infeasible (no finite degenerate set contains `c`). -/
def solveIDSRow (J : List (List ℚ)) (c : ℕ) : Option (Finset ℕ) :=
  pickMinCard ((allSubsets J.length).filter fun S => c ∈ S ∧ depRows J S)

/-! ## Data model -/

/-- Which finite bound a variable is near. -/
inductive BoundSide where
  | lower
  | upper
deriving DecidableEq

/-- Error kinds of the diagnostic pipeline (spec section 7). -/
inductive DHError where
  | InvalidTolerance
  | DimensionMismatch
  | SolverFailure
deriving DecidableEq

instance instDecEqExcept {ε α : Type _} [DecidableEq ε] [DecidableEq α] :
    DecidableEq (Except ε α) := fun x y =>
  match x, y with
  | .ok a, .ok b => decidable_of_iff (a = b) ⟨fun h => h ▸ rfl, fun h => by cases h; rfl⟩
  | .error a, .error b => decidable_of_iff (a = b) ⟨fun h => h ▸ rfl, fun h => by cases h; rfl⟩
  | .ok _, .error _ => isFalse fun h => Except.noConfusion h
  | .error _, .ok _ => isFalse fun h => Except.noConfusion h

/-- A constraint: identity, residual-evaluation body, optional lower/upper
bound (an equality has equal finite bounds), and its row of partial
derivatives as a function of the current point.  Translated from the Pyomo
constraint declarations of the notebook. -/
structure Constraint where
  id : ℕ
  body : List ℚ → ℚ
  lower : Option ℚ
  upper : Option ℚ
  grad : List ℚ → List ℚ

/-- A variable: current value, optional bounds, fixed/free flag. -/
structure Variable where
  value : ℚ
  lb : Option ℚ
  ub : Option ℚ
  fixed : Bool

/-- Snapshot of the model under analysis. -/
structure ModelState where
  vars : List Variable
  cons : List Constraint

/-- The current point: the vector of variable values. -/
def currentPoint (m : ModelState) : List ℚ := m.vars.map (·.value)

/-- A constraint is an equality when both bounds are present and equal. -/
def isEquality (c : Constraint) : Bool :=
  match c.lower, c.upper with
  | some l, some u => l == u
  | _, _ => false

/-- The equality constraints, in declaration order. -/
def eqCons (m : ModelState) : List Constraint := m.cons.filter isEquality

/-- Identities of the equality constraints, aligned with the Jacobian rows. -/
def eqIds (m : ModelState) : List ℕ := (eqCons m).map (·.id)

/-- The equality-constraint Jacobian at the current point: one gradient row per
equality constraint, in declaration order. -/
def eqJacobian (m : ModelState) : List (List ℚ) :=
  (eqCons m).map fun c => c.grad (currentPoint m)

/-- Modelled from the spec (4.1): the residual of a constraint at a point —
0 when satisfied, else the signed violation magnitude (negative below a lower
bound, positive above an upper bound; for an equality the signed deviation
from the right-hand side). -/
def residualVal (c : Constraint) (x : List ℚ) : ℚ :=
  let b := c.body x
  if b < c.lower.getD b then b - c.lower.getD b
  else if c.upper.getD b < b then b - c.upper.getD b
  else 0

/-- The constraints whose residual magnitude exceeds τ, with their residuals,
in declaration order. -/
def violations (m : ModelState) (τ : ℚ) : List (ℕ × ℚ) :=
  (m.cons.map fun c => (c.id, residualVal c (currentPoint m))).filter fun p => τ < |p.2|

/-- Modelled from the spec: `dh.check_residuals(tol=τ)` — the implementation
lives in the external `idaes` package.  Rejects a negative tolerance with
`InvalidTolerance` before any computation; otherwise returns the violation
report. -/
def check_residuals (m : ModelState) (τ : ℚ) : Except DHError (List (ℕ × ℚ)) :=
  if τ < 0 then .error .InvalidTolerance else .ok (violations m τ)

/-- Distance to the nearer finite bound, with the bound side; `none` for an
unbounded variable. -/
def nearerBound (v : Variable) : Option (BoundSide × ℚ) :=
  match v.lb, v.ub with
  | none, none => none
  | some l, none => some (.lower, |v.value - l|)
  | none, some u => some (.upper, |u - v.value|)
  | some l, some u =>
    if |v.value - l| ≤ |u - v.value| then some (.lower, |v.value - l|)
    else some (.upper, |u - v.value|)

/-- The bounded variables (by position) whose distance to the nearer finite
bound is at most τ, each with the bound side and the distance. -/
def boundViolations (vars : List Variable) (τ : ℚ) : List (ℕ × BoundSide × ℚ) :=
  vars.enum.filterMap fun p =>
    match nearerBound p.2 with
    | some sd => if sd.2 ≤ τ then some (p.1, sd.1, sd.2) else none
    | none => none

/-- Modelled from the spec: `dh.check_variable_bounds(tol=τ)` — the
implementation lives in the external `idaes` package.  Rejects a negative
tolerance before any computation. -/
def check_variable_bounds (vars : List Variable) (τ : ℚ) :
    Except DHError (List (ℕ × BoundSide × ℚ)) :=
  if τ < 0 then .error .InvalidTolerance else .ok (boundViolations vars τ)

/-- The near-zero left singular vectors of the equality Jacobian: in exact
arithmetic, a basis of its left null space. -/
def leftNull (m : ModelState) : List (List ℚ) := nullBasis (eqJacobian m)

/-- The rank deficiency: the number of (exactly) zero singular values of the
equality Jacobian, i.e. the dimension of its left null space. -/
def deficiencyOf (m : ModelState) : ℕ := (leftNull m).length

/-- Modelled from the spec (4.3): `dh.check_rank_equality_constraints()` — the
implementation lives in the external `idaes` package.  Builds the equality
Jacobian at the current point, counts the singular values below the threshold ε
(in exact arithmetic, the zero singular values), and returns the count together
with the near-zero left singular vectors for downstream use.  A negative ε is
rejected before any computation. -/
def check_rank_equality_constraints (m : ModelState) (ε : ℚ) :
    Except DHError (ℕ × List (List ℚ)) :=
  if ε < 0 then .error .InvalidTolerance else .ok (deficiencyOf m, leftNull m)

/-- Row indices whose entry magnitude in the vector `y` exceeds δ. -/
def supportOver (δ : ℚ) (y : List ℚ) : Finset ℕ :=
  ((List.range y.length).filter fun i => δ < |y.getD i 0|).toFinset

/-- Union of the δ-supports of the near-zero left singular vectors: the
candidate rows. -/
def candRows (m : ModelState) (δ : ℚ) : Finset ℕ :=
  (leftNull m).foldr (fun y acc => supportOver δ y ∪ acc) ∅

/-- Translate a Jacobian row index back to the equality constraint identity. -/
def rowToId (m : ModelState) (i : ℕ) : ℕ := (eqIds m).getD i 0

/-- Modelled from the spec (4.4): `dh.find_candidate_equations()` — the
implementation lives in the external `idaes` package.  Consumes the k
near-zero left singular vectors from the rank analysis and returns the union
of the constraints whose entry magnitude exceeds δ.  A negative δ is rejected
before any computation. -/
def find_candidate_equations (m : ModelState) (δ : ℚ) : Except DHError (Finset ℕ) :=
  if δ < 0 then .error .InvalidTolerance
  else .ok ((candRows m δ).image (rowToId m))

/-- Modelled from the spec (4.5): `dh.find_irreducible_degenerate_sets()` —
the implementation lives in the external `idaes` package.  For each candidate
equation, one MILP solve computes a minimum-cardinality degenerate set
containing it (`none` when infeasible); results are reported per candidate,
as constraint identities. -/
def find_irreducible_degenerate_sets (m : ModelState) (δ : ℚ) :
    Except DHError (List (ℕ × Option (Finset ℕ))) :=
  (find_candidate_equations m δ).map fun cands =>
    (cands.sort (· ≤ ·)).map fun cid =>
      (cid, (solveIDSRow (eqJacobian m) ((eqIds m).indexOf cid)).map fun S => S.image (rowToId m))

/-- Terminal states of one full analysis (spec section 4.5 state machine). -/
inductive Outcome where
  | Healthy
  | IDSComputedPerCandidate
deriving DecidableEq

/-- Output of one full analysis invocation. -/
structure AnalysisReport where
  residualReport : List (ℕ × ℚ)
  boundReport : List (ℕ × BoundSide × ℚ)
  deficiency : ℕ
  candidates : Finset ℕ
  idsReports : List (ℕ × Option (Finset ℕ))
  outcome : Outcome

/-- Residual-check stage in state-passing form: the model under analysis is
threaded through and, per the spec, never mutated. -/
def residualStage (τ : ℚ) (m : ModelState) :
    ModelState × Except DHError (List (ℕ × ℚ)) :=
  (m, check_residuals m τ)

/-- Bound-check stage in state-passing form. -/
def boundStage (τ : ℚ) (m : ModelState) :
    ModelState × Except DHError (List (ℕ × BoundSide × ℚ)) :=
  (m, check_variable_bounds m.vars τ)

/-- Rank-analysis stage in state-passing form. -/
def rankStage (ε : ℚ) (m : ModelState) :
    ModelState × Except DHError (ℕ × List (List ℚ)) :=
  (m, check_rank_equality_constraints m ε)

/-- Candidate-finding stage in state-passing form. -/
def candidateStage (δ : ℚ) (m : ModelState) :
    ModelState × Except DHError (Finset ℕ) :=
  (m, find_candidate_equations m δ)

/-- IDS-solving stage in state-passing form. -/
def idsStage (δ : ℚ) (m : ModelState) :
    ModelState × Except DHError (List (ℕ × Option (Finset ℕ))) :=
  (m, find_irreducible_degenerate_sets m δ)

/-- The external NLP solve that establishes the point under analysis: the one
step of the workflow that does write variable values into the model state
(owned by the collaborator, not the diagnostic core). -/
def loadPoint (xs : List ℚ) (m : ModelState) : ModelState :=
  { m with vars := (List.zip m.vars xs).map fun p => { p.1 with value := p.2 } }

/-- Modelled from the spec: one full analysis invocation, chaining the five
diagnostic stages with the model state threaded through; the report collects
every stage's output and the terminal state of the state machine. -/
def runAnalysis (m : ModelState) (τr τb ε δ : ℚ) :
    ModelState × Except DHError AnalysisReport :=
  let s1 := residualStage τr m
  let s2 := boundStage τb s1.1
  let s3 := rankStage ε s2.1
  let s4 := candidateStage δ s3.1
  let s5 := idsStage δ s4.1
  (s5.1, do
    let r ← s1.2
    let b ← s2.2
    let rk ← s3.2
    let cands ← s4.2
    let ids ← s5.2
    pure { residualReport := r, boundReport := b, deficiency := rk.1,
           candidates := cands, idsReports := ids,
           outcome := if rk.1 = 0 then Outcome.Healthy else Outcome.IDSComputedPerCandidate })

/-- The number of per-candidate IDS MILP solves recorded in a report. -/
def reportNumIDSSolves (e : Except DHError AnalysisReport) : Option ℕ :=
  e.toOption.map fun r => r.idsReports.length

/-- The terminal state recorded in a report. -/
def reportOutcome (e : Except DHError AnalysisReport) : Option Outcome :=
  e.toOption.map fun r => r.outcome

/-- The flagged constraint identities of a residual report (empty on error). -/
def flaggedIds (m : ModelState) (τ : ℚ) : List ℕ :=
  match check_residuals m τ with
  | .ok l => l.map fun p => p.1
  | .error _ => []

/-- All optimal IDS solutions when seeding with the candidate constraint
identity `cid`, translated back to constraint identities: the set of sets the
MILP solver may return (spec tie-breaking: any optimal solution is
acceptable). -/
def idsSolutionsSeeded (m : ModelState) (cid : ℕ) : Finset (Finset ℕ) :=
  ((Finset.range (eqJacobian m).length).powerset.filter
      (isOptimalIDS (eqJacobian m) ((eqIds m).indexOf cid))).image
    fun S => S.image (rowToId m)

/-! ## The notebook's concrete models (translated from the source) -/

/-- Example 1 of the Degeneracy Hunter notebook: variables `x[0..4]` with
bounds (-10, 10) initialized to 1, constraints
`con1 : x0 + x1 - x3 ≥ 10`, `con2 : x0*x3 + x1 ≥ 0`,
`con3 : x4*x3 + x0*x3 - x4 = 0` (identities 1, 2, 3 in declaration order),
at the point loaded by the zero-iteration solve, i.e. the initial values
`x = (1,1,1,1,1)`.  Gradient rows are the partial derivatives at the current
point. -/
def ex1Model : ModelState where
  vars := List.replicate 5 ⟨1, some (-10), some 10, false⟩
  cons :=
    [⟨1, fun x => x.getD 0 0 + x.getD 1 0 - x.getD 3 0, some 10, none,
        fun _ => [1, 1, 0, -1, 0]⟩,
     ⟨2, fun x => x.getD 0 0 * x.getD 3 0 + x.getD 1 0, some 0, none,
        fun x => [x.getD 3 0, 1, 0, x.getD 0 0, 0]⟩,
     ⟨3, fun x => x.getD 4 0 * x.getD 3 0 + x.getD 0 0 * x.getD 3 0 - x.getD 4 0, some 0, some 0,
        fun x => [x.getD 3 0, 0, 0, x.getD 4 0 + x.getD 0 0, x.getD 3 0 - 1]⟩]

/-- Example 2 of the Degeneracy Hunter notebook: variables `x[1..3]` with
bounds (0, 5) initialized to 1 (stored positionally, so `x[i]` is entry
`i - 1`), constraints `con1 : x1 + x2 ≥ 1`, `con2 : x1 + x2 + x3 = 1`,
`con3 : x2 - 2*x3 ≤ 1`, `con4 : x1 + x3 ≥ 1`, and, when
`with_degenerate_constraint` is set, the redundant duplicate
`con5 : x1 + x2 + x3 = 1` (identities 1..5 in declaration order). -/
def example2 (with_degenerate_constraint : Bool) : ModelState where
  vars := List.replicate 3 ⟨1, some 0, some 5, false⟩
  cons :=
    [⟨1, fun x => x.getD 0 0 + x.getD 1 0, some 1, none, fun _ => [1, 1, 0]⟩,
     ⟨2, fun x => x.getD 0 0 + x.getD 1 0 + x.getD 2 0, some 1, some 1, fun _ => [1, 1, 1]⟩,
     ⟨3, fun x => x.getD 1 0 - 2 * x.getD 2 0, none, some 1, fun _ => [0, 1, -2]⟩,
     ⟨4, fun x => x.getD 0 0 + x.getD 2 0, some 1, none, fun _ => [1, 0, 1]⟩] ++
    (if with_degenerate_constraint then
      [⟨5, fun x => x.getD 0 0 + x.getD 1 0 + x.getD 2 0, some 1, some 1, fun _ => [1, 1, 1]⟩]
     else [])

/-- Example 2 with the redundant equality included (the notebook's `m2`). -/
def m2Model : ModelState := example2 true

/-- Example 2 reformulated without the redundant equality (the notebook's
`m2b`). -/
def m2bModel : ModelState := example2 false

/-- Dot product of a coefficient row with the point. -/
def dotRow (r x : List ℚ) : ℚ := (List.zipWith (· * ·) r x).sum

/-- A five-equality model over five variables whose Jacobian rows are
`(1,0,0,0,0), (1,0,0,0,0), (0,1,0,0,0), (0,1,1,0,0), (0,0,1,0,0)`
(identities 1..5): rows 1 and 2 are duplicates, and rows 3, 4, 5 form a
second, independent degenerate combination.  Used to analyse the IDS MILP
when the seed candidate's degenerate set ties in size with an unrelated
one. -/
def cexModel : ModelState where
  vars := List.replicate 5 ⟨1, none, none, false⟩
  cons :=
    [⟨1, dotRow [1, 0, 0, 0, 0], some 1, some 1, fun _ => [1, 0, 0, 0, 0]⟩,
     ⟨2, dotRow [1, 0, 0, 0, 0], some 1, some 1, fun _ => [1, 0, 0, 0, 0]⟩,
     ⟨3, dotRow [0, 1, 0, 0, 0], some 1, some 1, fun _ => [0, 1, 0, 0, 0]⟩,
     ⟨4, dotRow [0, 1, 1, 0, 0], some 2, some 2, fun _ => [0, 1, 1, 0, 0]⟩,
     ⟨5, dotRow [0, 0, 1, 0, 0], some 1, some 1, fun _ => [0, 0, 1, 0, 0]⟩]

/-- The index set `m2b.I` of the reformulated model. -/
def m2bIndexList : List ℕ := [1, 2, 3]

/-- Translated from the notebook's final cell: after solving `m2b`, it runs
`for i in m2b.I: print("x[", i, "]=", m.x[i]())` — iterating over `m2b`'s
index set but reading the displayed values from Example 1's model `m`
(`m.x` is indexed by `0..4`, so entry `i` of `m`'s value vector is read). -/
def printedSolution (mVals _m2bVals : List ℚ) : List (ℕ × ℚ) :=
  m2bIndexList.map fun i => (i, mVals.getD i 0)

/-- The values the reformulated model `m2b` itself holds (`m2b.x` is indexed
by `1..3`, stored positionally). -/
def ownSolution (m2bVals : List ℚ) : List (ℕ × ℚ) :=
  m2bIndexList.map fun i => (i, m2bVals.getD (i - 1) 0)

/-! ## Helper lemmas -/

lemma check_residuals_ok (m : ModelState) (τ : ℚ) (h : 0 ≤ τ) :
    check_residuals m τ = Except.ok (violations m τ) := by
  unfold check_residuals; rw [if_neg (not_lt.mpr h)]

lemma check_variable_bounds_ok (vars : List Variable) (τ : ℚ) (h : 0 ≤ τ) :
    check_variable_bounds vars τ = Except.ok (boundViolations vars τ) := by
  unfold check_variable_bounds; rw [if_neg (not_lt.mpr h)]

lemma check_rank_ok (m : ModelState) (ε : ℚ) (h : 0 ≤ ε) :
    check_rank_equality_constraints m ε = Except.ok (deficiencyOf m, leftNull m) := by
  unfold check_rank_equality_constraints; rw [if_neg (not_lt.mpr h)]

lemma find_candidate_equations_ok (m : ModelState) (δ : ℚ) (h : 0 ≤ δ) :
    find_candidate_equations m δ = Except.ok ((candRows m δ).image (rowToId m)) := by
  unfold find_candidate_equations; rw [if_neg (not_lt.mpr h)]

lemma filter_subset_filter_of_imp {α : Type _} {p q : α → Bool}
    (h : ∀ a, p a = true → q a = true) (l : List α) : l.filter p ⊆ l.filter q := by
  intro a ha
  rw [List.mem_filter] at ha ⊢
  exact ⟨ha.1, h a ha.2⟩

lemma candRows_eq_empty (m : ModelState) (δ : ℚ) (h : deficiencyOf m = 0) :
    candRows m δ = ∅ := by
  have hnull : leftNull m = [] := List.length_eq_zero.mp h
  simp [candRows, hnull]

/-! ## Claims -/

/-- Claim C1, counterexample: at the Example 1 point x=(1,1,1,1,1) with
tolerance τ=0.1, the residual report does NOT flag only the first constraint:
it flags constraints 1 and 3, because `con3`'s body `x4*x3 + x0*x3 - x4`
evaluates to 1 ≠ 0 there, so `con3` is not satisfied. -/
theorem residuals_example1_counterexample :
    flaggedIds ex1Model (1/10) = [1, 3] ∧ 3 ∈ flaggedIds ex1Model (1/10) := by
  decide

/-- Claim C1, amended: at the Example 1 point x=(1,1,1,1,1) with tolerance
τ=0.1, the residual report flags exactly constraint `con1` (signed violation
-9, magnitude 9) and constraint `con3` (violation 1); `con2` is satisfied and
not flagged. -/
theorem residuals_example1_amended :
    check_residuals ex1Model (1/10) = Except.ok [(1, -9), (3, 1)]
    ∧ 2 ∉ flaggedIds ex1Model (1/10) := by
  decide

/-- Claim C2, counterexample: in `cexModel`, constraint 3 (Jacobian row 2) is
a candidate, and the selection {rows 0, 1, 2} is an optimal solution of the
IDS MILP seeded with it (no smaller feasible selection contains row 2), yet
removing the member row 2 leaves the still-dependent rows {0, 1}, a proper
subset of the IDS that is linearly dependent.  So a returned IDS need not
become full rank after removing an arbitrary single member, and may have a
linearly dependent proper subset (one not containing the seed). -/
theorem ids_minimality_counterexample :
    find_candidate_equations cexModel (1/10) = Except.ok {1, 2, 3, 4, 5}
    ∧ (eqIds cexModel).indexOf 3 = 2
    ∧ isOptimalIDS (eqJacobian cexModel) 2 {0, 1, 2}
    ∧ ({1, 2, 3} : Finset ℕ) ∈ idsSolutionsSeeded cexModel 3
    ∧ depRows (eqJacobian cexModel) (({0, 1, 2} : Finset ℕ).erase 2)
    ∧ ({0, 1} : Finset ℕ) ⊆ {0, 1, 2} ∧ ({0, 1} : Finset ℕ) ≠ {0, 1, 2}
    ∧ depRows (eqJacobian cexModel) {0, 1} := by
  decide

/-- Claim C2, amended: for every optimal IDS `S` returned when seeded with
candidate `c`, removing any single member other than the seed `c` leaves a
linearly independent set of rows, and no proper subset of `S` that contains
`c` is linearly dependent (`S` has minimal cardinality among degenerate sets
containing `c`). -/
theorem ids_minimality_amended (J : List (List ℚ)) (c : ℕ) (S : Finset ℕ)
    (h : isOptimalIDS J c S) :
    (∀ j ∈ S, j ≠ c → ¬ depRows J (S.erase j))
    ∧ ∀ T ⊆ S, c ∈ T → T ≠ S → ¬ depRows J T := by
  obtain ⟨hsub, hc, _, hmin⟩ := h
  have key : ∀ T ⊆ S, c ∈ T → T ≠ S → ¬ depRows J T := by
    intro T hTS hcT hne hdepT
    have hTpow : T ∈ (Finset.range J.length).powerset :=
      Finset.mem_powerset.mpr (hTS.trans hsub)
    have hcard : S.card ≤ T.card := hmin T hTpow hcT hdepT
    have hlt : T.card < S.card :=
      Finset.card_lt_card (Finset.ssubset_iff_subset_ne.mpr ⟨hTS, hne⟩)
    exact absurd hcard (not_le.mpr hlt)
  refine ⟨?_, key⟩
  intro j hj hjc
  refine key (S.erase j) (Finset.erase_subset j S) ?_ ?_
  · exact Finset.mem_erase.mpr ⟨fun hcj => hjc hcj.symm, hc⟩
  · intro hEq
    exact Finset.not_mem_erase j S (by rw [hEq]; exact hj)

/-- Witness for the amended Claim C2 at the Example 2 model, seed row 0. -/
theorem ids_minimality_amended_witness :
    (∀ j ∈ ({0, 1} : Finset ℕ), j ≠ 0 →
      ¬ depRows (eqJacobian m2Model) (({0, 1} : Finset ℕ).erase j))
    ∧ ∀ T ⊆ ({0, 1} : Finset ℕ), 0 ∈ T → T ≠ {0, 1} →
      ¬ depRows (eqJacobian m2Model) T :=
  ids_minimality_amended (eqJacobian m2Model) 0 {0, 1} (by decide)

/-- Claim C3: the IDS MILP fixes the seed candidate's binary selection
variable to 1 (feasible selections must contain the seed), so every IDS
returned when seeding with `c` contains `c` itself. -/
theorem ids_seed_membership (J : List (List ℚ)) (c : ℕ) (S : Finset ℕ)
    (h : isOptimalIDS J c S) : c ∈ S := h.2.1

/-- Witness for Claim C3 at the Example 2 model, seed row 1. -/
theorem ids_seed_membership_witness :
    isOptimalIDS (eqJacobian m2Model) 1 {0, 1} ∧ 1 ∈ ({0, 1} : Finset ℕ) :=
  ⟨by decide, ids_seed_membership (eqJacobian m2Model) 1 {0, 1} (by decide)⟩

/-- Claim C4: the rank analyzer's deficiency count equals the number of
near-zero left singular vectors the candidate finder consumes; when the
deficiency is 0 the candidate set is empty, no IDS MILP solves occur, and the
pipeline terminates in the Healthy state. -/
theorem rank_candidate_consistency (m : ModelState) (τr τb ε δ : ℚ)
    (hτr : 0 ≤ τr) (hτb : 0 ≤ τb) (hε : 0 ≤ ε) (hδ : 0 ≤ δ) :
    check_rank_equality_constraints m ε = Except.ok (deficiencyOf m, leftNull m)
    ∧ deficiencyOf m = (leftNull m).length
    ∧ (deficiencyOf m = 0 →
        find_candidate_equations m δ = Except.ok ∅
        ∧ reportNumIDSSolves (runAnalysis m τr τb ε δ).2 = some 0
        ∧ reportOutcome (runAnalysis m τr τb ε δ).2 = some Outcome.Healthy) := by
  refine ⟨check_rank_ok m ε hε, rfl, fun hd => ?_⟩
  have hcand : candRows m δ = ∅ := candRows_eq_empty m δ hd
  have hfce : find_candidate_equations m δ = Except.ok ∅ := by
    rw [find_candidate_equations_ok m δ hδ, hcand, Finset.image_empty]
  have hids : find_irreducible_degenerate_sets m δ = Except.ok [] := by
    rw [find_irreducible_degenerate_sets, hfce]
    simp [Except.map, Finset.sort_empty]
  have hrun : (runAnalysis m τr τb ε δ).2 = Except.ok
      { residualReport := violations m τr, boundReport := boundViolations m.vars τb,
        deficiency := 0, candidates := ∅, idsReports := [],
        outcome := Outcome.Healthy } := by
    simp only [runAnalysis, residualStage, boundStage, rankStage, candidateStage, idsStage,
      check_residuals_ok m τr hτr, check_variable_bounds_ok m.vars τb hτb,
      check_rank_ok m ε hε, hfce, hids, hd]
    rfl
  refine ⟨hfce, ?_, ?_⟩ <;> simp [reportNumIDSSolves, reportOutcome, hrun, Except.toOption]

/-- Witness for Claim C4 at the reformulated Example 2 model (deficiency 0). -/
theorem rank_candidate_consistency_witness :
    ((0 : ℚ) ≤ 1/10 ∧ deficiencyOf m2bModel = 0)
    ∧ find_candidate_equations m2bModel (1/10) = Except.ok ∅
    ∧ reportNumIDSSolves (runAnalysis m2bModel (1/10) (1/10) (1/10) (1/10)).2 = some 0
    ∧ reportOutcome (runAnalysis m2bModel (1/10) (1/10) (1/10) (1/10)).2
        = some Outcome.Healthy :=
  ⟨⟨by decide, by decide⟩,
   (rank_candidate_consistency m2bModel (1/10) (1/10) (1/10) (1/10)
      (by decide) (by decide) (by decide) (by decide)).2.2 (by decide)⟩

/-- Claim C5: on the Example 2 model with the duplicated equality (con2 and
con5): the rank deficiency is 1, the candidate set is exactly the two
duplicate equality identities {2, 5}, and the IDS computed for either
candidate — any optimal solution the MILP solver may return — is exactly
{2, 5}, of cardinality 2. -/
theorem example2_degeneracy_analysis :
    deficiencyOf m2Model = 1
    ∧ find_candidate_equations m2Model (1/10) = Except.ok {2, 5}
    ∧ idsSolutionsSeeded m2Model 2 = {({2, 5} : Finset ℕ)}
    ∧ idsSolutionsSeeded m2Model 5 = {({2, 5} : Finset ℕ)}
    ∧ ({2, 5} : Finset ℕ).card = 2 := by
  decide

/-- Claim C6: the residual filter is antitone in the tolerance — for
0 ≤ τ1 < τ2 both checks succeed and every constraint flagged at τ2 is flagged
at τ1. -/
theorem residual_filter_antitone (m : ModelState) (τ1 τ2 : ℚ)
    (h1 : 0 ≤ τ1) (h12 : τ1 < τ2) :
    check_residuals m τ1 = Except.ok (violations m τ1)
    ∧ check_residuals m τ2 = Except.ok (violations m τ2)
    ∧ violations m τ2 ⊆ violations m τ1 := by
  refine ⟨check_residuals_ok m τ1 h1, check_residuals_ok m τ2 (h1.trans h12.le), ?_⟩
  unfold violations
  refine filter_subset_filter_of_imp (fun a ha => ?_) _
  exact decide_eq_true (lt_trans h12 (of_decide_eq_true ha))

/-- Witness for Claim C6 at the Example 1 model with τ1 = 0 and τ2 = 0.1. -/
theorem residual_filter_antitone_witness :
    ((0 : ℚ) ≤ 0 ∧ (0 : ℚ) < 1/10)
    ∧ check_residuals ex1Model 0 = Except.ok (violations ex1Model 0)
    ∧ check_residuals ex1Model (1/10) = Except.ok (violations ex1Model (1/10))
    ∧ violations ex1Model (1/10) ⊆ violations ex1Model 0 :=
  ⟨⟨by decide, by decide⟩, residual_filter_antitone ex1Model 0 (1/10) (by decide) (by decide)⟩

/-- Claim C7: a negative tolerance supplied to the residual checker, the bound
checker, the rank stage (ε) or the candidate stage (δ) is rejected with
`InvalidTolerance`, producing an error and no partial results. -/
theorem negative_tolerance_rejected (m : ModelState) (t : ℚ) (h : t < 0) :
    check_residuals m t = Except.error DHError.InvalidTolerance
    ∧ check_variable_bounds m.vars t = Except.error DHError.InvalidTolerance
    ∧ check_rank_equality_constraints m t = Except.error DHError.InvalidTolerance
    ∧ find_candidate_equations m t = Except.error DHError.InvalidTolerance
    ∧ find_irreducible_degenerate_sets m t = Except.error DHError.InvalidTolerance := by
  refine ⟨?_, ?_, ?_, ?_, ?_⟩ <;>
    simp [check_residuals, check_variable_bounds, check_rank_equality_constraints,
      find_candidate_equations, find_irreducible_degenerate_sets, Except.map, h]

/-- Witness for Claim C7 at the Example 1 model with tolerance -1. -/
theorem negative_tolerance_rejected_witness :
    ((-1 : ℚ) < 0)
    ∧ (check_residuals ex1Model (-1) = Except.error DHError.InvalidTolerance
       ∧ check_variable_bounds ex1Model.vars (-1) = Except.error DHError.InvalidTolerance
       ∧ check_rank_equality_constraints ex1Model (-1) = Except.error DHError.InvalidTolerance
       ∧ find_candidate_equations ex1Model (-1) = Except.error DHError.InvalidTolerance
       ∧ find_irreducible_degenerate_sets ex1Model (-1)
           = Except.error DHError.InvalidTolerance) :=
  ⟨by decide, negative_tolerance_rejected ex1Model (-1) (by decide)⟩

/-- Claim C8: for τ ≥ 0 the bound checker returns exactly the bounded
variables whose distance to the nearer finite bound is at most τ, paired with
the bound side and the distance; unbounded variables are never returned; and
on the Example 1 variables (bounds (-10, 10), value 1) with τ = 1 the report
is empty (the distance to the nearer bound is 9). -/
theorem bound_checker_exact (vars : List Variable) (τ : ℚ) (h : 0 ≤ τ) :
    check_variable_bounds vars τ = Except.ok (boundViolations vars τ)
    ∧ (∀ i s d, (i, s, d) ∈ boundViolations vars τ ↔
        ∃ v, vars[i]? = some v ∧ nearerBound v = some (s, d) ∧ d ≤ τ)
    ∧ (∀ i v, vars[i]? = some v → v.lb = none → v.ub = none →
        ∀ s d, (i, s, d) ∉ boundViolations vars τ)
    ∧ boundViolations ex1Model.vars 1 = []
    ∧ check_variable_bounds ex1Model.vars 1 = Except.ok [] := by
  have hmem : ∀ i s d, (i, s, d) ∈ boundViolations vars τ ↔
      ∃ v, vars[i]? = some v ∧ nearerBound v = some (s, d) ∧ d ≤ τ := by
    intro i s d
    unfold boundViolations
    rw [List.mem_filterMap]
    constructor
    · rintro ⟨⟨j, v⟩, hmemE, hf⟩
      have hj : vars[j]? = some v := List.mk_mem_enum_iff_getElem?.mp hmemE
      rcases hnb : nearerBound v with _ | ⟨s', d'⟩ <;> rw [hnb] at hf
      · exact absurd hf (by simp)
      · dsimp only at hf
        split_ifs at hf with hd
        · obtain ⟨rfl, rfl, rfl⟩ : j = i ∧ s' = s ∧ d' = d := by
            simpa [Prod.ext_iff] using hf
          exact ⟨v, hj, hnb, hd⟩
    · rintro ⟨v, hv, hnb, hd⟩
      exact ⟨(i, v), List.mk_mem_enum_iff_getElem?.mpr hv, by simp [hnb, hd]⟩
  refine ⟨check_variable_bounds_ok vars τ h, hmem, ?_, by decide, by decide⟩
  intro i v hv hl hu s d hin
  obtain ⟨v', hv', hnb', _⟩ := (hmem i s d).mp hin
  rw [hv] at hv'
  obtain rfl : v = v' := by injection hv'
  rw [nearerBound, hl, hu] at hnb'
  exact Option.noConfusion hnb'

/-- Witness for Claim C8 at the Example 1 variables with τ = 1. -/
theorem bound_checker_exact_witness :
    ((0 : ℚ) ≤ 1)
    ∧ (check_variable_bounds ex1Model.vars 1 = Except.ok (boundViolations ex1Model.vars 1)
       ∧ (∀ i s d, (i, s, d) ∈ boundViolations ex1Model.vars 1 ↔
           ∃ v, ex1Model.vars[i]? = some v ∧ nearerBound v = some (s, d) ∧ d ≤ 1)
       ∧ (∀ i v, ex1Model.vars[i]? = some v → v.lb = none → v.ub = none →
           ∀ s d, (i, s, d) ∉ boundViolations ex1Model.vars 1)
       ∧ boundViolations ex1Model.vars 1 = []
       ∧ check_variable_bounds ex1Model.vars 1 = Except.ok []) :=
  ⟨by decide, bound_checker_exact ex1Model.vars 1 (by decide)⟩

/-- Claim C9: no stage of the diagnostic pipeline mutates the model under
analysis — each state-passing stage, and the full analysis, returns the model
state unchanged (only the external point-loading solve writes values). -/
theorem pipeline_preserves_model (m : ModelState) (τr τb ε δ : ℚ) :
    (residualStage τr m).1 = m
    ∧ (boundStage τb m).1 = m
    ∧ (rankStage ε m).1 = m
    ∧ (candidateStage δ m).1 = m
    ∧ (idsStage δ m).1 = m
    ∧ (runAnalysis m τr τb ε δ).1 = m :=
  ⟨rfl, rfl, rfl, rfl, rfl, rfl⟩

/-- Claim C10: the notebook's final cell iterates over the reformulated
model's index set but reads every displayed value from Example 1's model `m`:
the printed pairs are independent of `m2b`'s own values, equal `m`'s values at
indices 1..3, and differ from `m2b`'s own solution for concrete diverging
states. -/
theorem reformulated_printout_reads_original_model :
    (∀ mVals a b : List ℚ, printedSolution mVals a = printedSolution mVals b)
    ∧ (∀ mVals m2bVals : List ℚ,
        printedSolution mVals m2bVals = m2bIndexList.map fun i => (i, mVals.getD i 0))
    ∧ printedSolution [0, 3, 5, 7, 9] [1, 0, 0] ≠ ownSolution [1, 0, 0] :=
  ⟨fun _ _ _ => rfl, fun _ _ => rfl, by decide⟩
